import Mathlib

/-!
Verification development for the `Computer-Architecture` repository: a
shallow embedding in Lean 4 of the memory / cache / CPU simulator found in
`memory.py`, `cache.py`, `cpu.py` and `main.py`, together with theorems
settling the specification claims about it.

Conventions of the embedding:
* Python integers are unbounded, so addresses and stored values are `Int`.
* Python exceptions become explicit error values: an operation that can
  raise returns the error alongside the (possibly partially mutated)
  state, matching the fact that a Python object keeps the mutations made
  before the `raise`.
* `Memory.memory` (a Python dict with `.get(addr, 0)`) is a total function
  `Int → Int`, zero by default.
* The cache's `deque` is a `List` (oldest entry first); `dirty_entries`
  (a Python `set`) is a `Finset Int`.
* Logging calls are side-effect free and are dropped.
-/

/-- The exceptions the simulator can raise, one constructor per `raise`
site that the claims mention. -/
inductive Err where
  /-- Error for `MemoryError` raised by `Memory.check_bounds`. -/
  | outOfBounds
  /-- Error for `OverflowError` raised by `Memory.check_value`. -/
  | valueOutOfRange
  /-- Error for `ValueError` raised by `Cache.cache_control`. -/
  | invalidControlCode
  /-- Error for `ValueError` raised by `CPU.execute_instruction` on an unknown opcode. -/
  | unknownOperation
  deriving DecidableEq, Repr

/-- Python's unary `~n` on an int: `~n = -n - 1`.  Used by
`Memory.check_value`, whose lower bound is written `~0x80000000`. -/
def pyBitNot (n : Int) : Int := -n - 1

namespace Memory

/-- State of `memory.Memory`: `size` is `self.size`, `memory` the sparse
dict `self.memory` (absent keys read as 0), `initial_state` the snapshot
taken at construction. -/
structure State where
  size : Int
  memory : Int → Int
  initial_state : Int → Int

/-- A `Memory` as built with no initialization entries: the dict starts
empty, so every address reads as 0.  (`initialize_memory` loads pairs from
an external file; the file contents are a parameter of the model, and the
claims only need the empty load.) -/
def init (size : Int) : State :=
  { size := size, memory := fun _ => 0, initial_state := fun _ => 0 }

/-- Embedding of `Memory.check_bounds` (memory.py:37-42), after address decoding: the
string case `int(address, 2)` has already produced the integer `address`.
Raises `MemoryError` iff `address_int >= self.size`; there is no check for
negative addresses in the source. -/
def check_bounds (size : Int) (address : Int) : Except Err Int :=
  if address ≥ size then .error .outOfBounds else .ok address

/-- Embedding of `Memory.check_value` (memory.py:44-50): raises `OverflowError` iff
`value > 0x7FFFFFFF or value < ~0x80000000`.  (The `isinstance` type check
is vacuous here because the model's values are always integers.) -/
def check_value (value : Int) : Except Err Unit :=
  if value > 0x7FFFFFFF ∨ value < pyBitNot 0x80000000 then .error .valueOutOfRange
  else .ok ()

/-- Embedding of `Memory.read_word` (memory.py:52-56): bounds-check, then
`self.memory.get(address_int, 0)`. -/
def read_word (m : State) (address : Int) : Except Err Int :=
  match check_bounds m.size address with
  | .error e => .error e
  | .ok a => .ok (m.memory a)

/-- Embedding of `Memory.write_word` (memory.py:58-62): bounds-check the address,
range-check the value, then store. -/
def write_word (m : State) (address value : Int) : Except Err State :=
  match check_bounds m.size address with
  | .error e => .error e
  | .ok a =>
    match check_value value with
    | .error e => .error e
    | .ok _ => .ok { m with memory := fun x => if x = a then value else m.memory x }

/-- Embedding of `Memory.flush` (memory.py:64-66): `self.memory.clear()`. -/
def flushMem (m : State) : State :=
  { m with memory := fun _ => 0 }

/-- Embedding of `Memory.reset_to_initial` (memory.py:68-70). -/
def reset_to_initial (m : State) : State :=
  { m with memory := m.initial_state }

end Memory

namespace Cache

/-- One element of the cache's deque: the dict `{'address': ..., 'data': ...}`. -/
structure Entry where
  address : Int
  data : Int
  deriving DecidableEq, Repr

/-- State of `cache.Cache`.  `cache` is the deque, oldest entry first.
Note that although `__init__` (cache.py:15) creates the deque with
`maxlen=cache_size`, `update_cache` (cache.py:100) replaces it with
`deque(genexpr)` — a deque with **no** `maxlen` — so the bound is only a
field, never enforced after the first insertion; the model's list is
therefore unbounded, exactly like the source. -/
structure State where
  main_memory : Memory.State
  cache_size : Nat
  cache : List Entry
  enabled : Bool
  dirty_entries : Finset Int
  hits : Nat
  misses : Nat
  total_access_time : Nat
  total_accesses : Nat

/-- Embedding of `Cache.__init__` (cache.py:6-24) over a given backing memory. -/
def init (mem : Memory.State) (cache_size : Nat) : State :=
  { main_memory := mem, cache_size := cache_size, cache := []
    enabled := false, dirty_entries := ∅
    hits := 0, misses := 0, total_access_time := 0, total_accesses := 0 }

/-- The loop body of `Cache.sync_with_memory` (cache.py:28-30): walk the
deque, writing each dirty entry through `Memory.write_word`.  A failing
write aborts the walk; the writes already made are kept, matching the
Python object state after the re-raised exception. -/
def syncWalk (mem : Memory.State) (dirty : Finset Int) :
    List Entry → Memory.State × Option Err
  | [] => (mem, none)
  | e :: rest =>
    if e.address ∈ dirty then
      match Memory.write_word mem e.address e.data with
      | .error err => (mem, some err)
      | .ok mem2 => syncWalk mem2 dirty rest
    else syncWalk mem dirty rest

/-- Embedding of `Cache.sync_with_memory` (cache.py:26-35): write every dirty resident
entry back, then clear the dirty set.  On an exception the dirty set is
left untouched (the `clear` on line 31 is never reached) and the error is
re-raised. -/
def sync_with_memory (c : State) : State × Option Err :=
  match syncWalk c.main_memory c.dirty_entries c.cache with
  | (mem2, none) => ({ c with main_memory := mem2, dirty_entries := ∅ }, none)
  | (mem2, some err) => ({ c with main_memory := mem2 }, some err)

/-- Embedding of `Cache.update_cache` (cache.py:99-102): drop every entry for
`address`, then append the new entry.  The rebuilt deque has no `maxlen`,
so nothing is evicted however long the list grows. -/
def update_cache (c : State) (address data : Int) : State :=
  { c with cache := c.cache.filter (fun e => e.address ≠ address) ++ [⟨address, data⟩] }

/-- Embedding of `Cache.cache_read` (cache.py:37-57).  Returns the read result together
with the successor state; the counters incremented before a failing
memory read stay incremented. -/
def cache_read (c : State) (address : Int) : Except Err Int × State :=
  if c.enabled = false then (Memory.read_word c.main_memory address, c)
  else
    let c1 := { c with total_accesses := c.total_accesses + 1 }
    match c1.cache.find? (fun e => e.address = address) with
    | some e =>
      (.ok e.data,
       { c1 with hits := c1.hits + 1, total_access_time := c1.total_access_time + 1 })
    | none =>
      let c2 := { c1 with misses := c1.misses + 1
                          total_access_time := c1.total_access_time + 10 }
      match Memory.read_word c2.main_memory address with
      | .error err => (.error err, c2)
      | .ok data => (.ok data, update_cache c2 address data)

/-- Embedding of `Cache.cache_write` (cache.py:90-97): disabled → straight to memory;
enabled → install in the cache and mark the address dirty (write-back, no
memory traffic). -/
def cache_write (c : State) (address data : Int) : State × Option Err :=
  if c.enabled = false then
    match Memory.write_word c.main_memory address data with
    | .error err => (c, some err)
    | .ok mem2 => ({ c with main_memory := mem2 }, none)
  else
    ({ (update_cache c address data) with
       dirty_entries := insert address c.dirty_entries }, none)

/-- Embedding of `Cache.flush` (cache.py:117-120): sync, then `self.cache.clear()`.  If
the sync raises, the clear is never reached. -/
def flushCache (c : State) : State × Option Err :=
  match sync_with_memory c with
  | (c2, none) => ({ c2 with cache := [] }, none)
  | (c2, some err) => (c2, some err)

/-- Embedding of `Cache.cache_control` (cache.py:104-115): `0` disable, `1` enable,
`2` flush, anything else raises `ValueError`. -/
def cache_control (c : State) (code : Int) : State × Option Err :=
  if code = 0 then ({ c with enabled := false }, none)
  else if code = 1 then ({ c with enabled := true }, none)
  else if code = 2 then flushCache c
  else (c, some .invalidControlCode)

end Cache

namespace CPU

/-- A decoded instruction line.  Registers are indices 0..31 (the Python
code keys its register dict by the names `R0`..`R31`; the textual decoder
is outside the core).  Immediates, branch offsets and jump targets are
the `int(...)` of the operand token. -/
inductive Instr where
  | ADD (rd rs rt : Nat)
  | ADDI (rt rs : Nat) (immd : Int)
  | SUB (rd rs rt : Nat)
  | SLT (rd rs rt : Nat)
  | BNE (rs rt : Nat) (offset : Int)
  | J (target : Int)
  | JAL (target : Int)
  | LW (rt : Nat) (offset : Int) (rs : Nat)
  | SW (rt : Nat) (offset : Int) (rs : Nat)
  | CACHE (code : Int)
  | HALT
  deriving DecidableEq, Repr

/-- State of `cpu.CPU`: the register file (total over indices; the
simulator only ever touches `R0`..`R31`), the program counter, the
`running` flag and the attached cache (which owns the memory). -/
structure State where
  cache : Cache.State
  pc : Int
  registers : Nat → Int
  running : Bool

/-- The guarded register write the handlers use: `if rd != 'R0':
self.registers[rd] = result` (register 0 is hard-wired to 0). -/
def writeReg (regs : Nat → Int) (rd : Nat) (v : Int) : Nat → Int :=
  if rd = 0 then regs else fun r => if r = rd then v else regs r

/-- Embedding of `CPU.execute_instruction` (cpu.py:49-83) dispatching to the
`execute_*` handlers (cpu.py:85-271).  Returns the successor state and
the raised exception, if any; state mutated before a `raise` (e.g. cache
counters bumped by a failing `cache_read`) is kept. -/
def execute_instruction (i : Instr) (s : State) : State × Option Err :=
  match i with
  | .ADD rd rs rt =>
    ({ s with registers := writeReg s.registers rd (s.registers rs + s.registers rt)
              pc := s.pc + 4 }, none)
  | .ADDI rt rs immd =>
    ({ s with registers := writeReg s.registers rt (s.registers rs + immd)
              pc := s.pc + 4 }, none)
  | .SUB rd rs rt =>
    ({ s with registers := writeReg s.registers rd (s.registers rs - s.registers rt)
              pc := s.pc + 4 }, none)
  | .SLT rd rs rt =>
    ({ s with registers := writeReg s.registers rd
                (if s.registers rs < s.registers rt then 1 else 0)
              pc := s.pc + 4 }, none)
  | .BNE rs rt offset =>
    ({ s with pc := if s.registers rs ≠ s.registers rt
                    then s.pc + 4 + offset * 4 else s.pc + 4 }, none)
  | .J target => ({ s with pc := target * 4 }, none)
  | .JAL target =>
    ({ s with registers := fun r => if r = 7 then s.pc + 4 else s.registers r
              pc := target * 4 }, none)
  | .LW rt offset rs =>
    let address := s.registers rs + offset
    match Cache.cache_read s.cache address with
    | (.error err, c2) => ({ s with cache := c2 }, some err)
    | (.ok v, c2) =>
      ({ s with cache := c2, registers := writeReg s.registers rt v
                pc := s.pc + 4 }, none)
  | .SW rt offset rs =>
    let address := s.registers rs + offset
    match Cache.cache_write s.cache address (s.registers rt) with
    | (c2, some err) => ({ s with cache := c2 }, some err)
    | (c2, none) => ({ s with cache := c2, pc := s.pc + 4 }, none)
  | .CACHE code =>
    match Cache.cache_control s.cache code with
    | (c2, some err) => ({ s with cache := c2 }, some err)
    | (c2, none) => ({ s with cache := c2, pc := s.pc + 4 }, none)
  | .HALT => ({ s with running := false }, none)

/-- The run loop of `main` (main.py:32-36): `while cpu.running and
instruction_count < len(instructions)`, execute
`instructions[instruction_count]`, then `instruction_count += 1`.  An
exception leaves the loop and aborts the run. -/
def runFrom (instrs : List Instr) (s : State) (count : Nat) : State × Option Err :=
  if h : s.running = true ∧ count < instrs.length then
    match execute_instruction (instrs.get ⟨count, h.2⟩) s with
    | (s2, some err) => (s2, some err)
    | (s2, none) => runFrom instrs s2 (count + 1)
  else (s, none)
termination_by instrs.length - count

/-- Purely sequential execution of an instruction list, front to back,
stopping when `running` goes false or an exception is raised.  `runFrom`
is proved equal to this: the loop's counter selects instructions in
textual order. -/
def execSeq : List Instr → State → State × Option Err
  | [], s => (s, none)
  | i :: rest, s =>
    if s.running = true then
      match execute_instruction i s with
      | (s2, some err) => (s2, some err)
      | (s2, none) => execSeq rest s2
    else (s, none)

end CPU

/-! ## Claim C1 -/

/-- C1: the claimed FIFO eviction does not happen.  With capacity 2 and
the cache enabled, writing addresses 0, 1, 2 leaves **all three** entries
resident — the entry for address 0 is not evicted and the resident count
exceeds the capacity.  `update_cache` rebuilds the deque without
`maxlen`, so the capacity bound set in `__init__` is never enforced. -/
theorem c1_no_eviction_at_capacity :
    (Cache.cache_write (Cache.cache_write (Cache.cache_write
        { Cache.init (Memory.init 1024) 2 with enabled := true }
        0 10).1 1 20).1 2 30).1.cache =
      [⟨0, 10⟩, ⟨1, 20⟩, ⟨2, 30⟩] ∧
    (Cache.cache_write (Cache.cache_write (Cache.cache_write
        { Cache.init (Memory.init 1024) 2 with enabled := true }
        0 10).1 1 20).1 2 30).1.cache.length = 3 := by
  constructor <;> rfl

/-! ## Claim C2 -/

/-- C2 counterexample: the claim says a negative address must fail with
`OutOfBounds`, but `check_bounds` only tests `address >= size`: at
address `-1` a read returns `.ok 0` and a write succeeds. -/
theorem c2_negative_address_accepted :
    ((-1 : Int) < 0) ∧
    Memory.read_word (Memory.init 1024) (-1) = .ok 0 ∧
    (∃ m2, Memory.write_word (Memory.init 1024) (-1) 7 = .ok m2) := by
  exact ⟨by decide, rfl, ⟨_, rfl⟩⟩

/-- C2 amended: `read_word` and `write_word` fail with `OutOfBounds`
exactly when the (decoded) address is `≥ capacity`; negative addresses
are **not** rejected, and every address `< capacity` reads without an
out-of-bounds error. -/
theorem c2_out_of_bounds_iff (m : Memory.State) (a v : Int) :
    (Memory.read_word m a = .error .outOfBounds ↔ m.size ≤ a) ∧
    (Memory.write_word m a v = .error .outOfBounds ↔ m.size ≤ a) ∧
    (a < m.size → ∃ d, Memory.read_word m a = .ok d) := by
  unfold Memory.read_word Memory.write_word Memory.check_bounds Memory.check_value
  by_cases h : a ≥ m.size <;> by_cases hv : v > 0x7FFFFFFF ∨ v < pyBitNot 0x80000000 <;>
    simp [h, hv]

/-- C2 witness: the amended theorem applied at a concrete in-bounds
address. -/
theorem c2_out_of_bounds_iff_witness :
    ∃ d, Memory.read_word (Memory.init 1024) 5 = .ok d :=
  (c2_out_of_bounds_iff (Memory.init 1024) 5 0).2.2 (by decide)

/-! ## Claim C3 -/

/-- C3: the value `-2^31 - 1 = -2147483649` lies outside the signed
32-bit range, yet `write_word` accepts and stores it, because
`check_value`'s lower bound is written `~0x80000000` (which Python
evaluates to `-2^31 - 1`) instead of `-0x80000000`.  The next value down,
`-2147483650`, is rejected, and the claimed upper bound `2^31 - 1` is
enforced exactly — the failure is precisely the single value
`-2147483649`. -/
theorem c3_lower_bound_off_by_one :
    ((-2147483649 : Int) < -(2 ^ 31)) ∧
    (∃ m2, Memory.write_word (Memory.init 1024) 0 (-2147483649) = .ok m2 ∧
           Memory.read_word m2 0 = .ok (-2147483649)) ∧
    Memory.write_word (Memory.init 1024) 0 (-2147483650) = .error .valueOutOfRange ∧
    (∃ m2, Memory.write_word (Memory.init 1024) 0 2147483647 = .ok m2) ∧
    Memory.write_word (Memory.init 1024) 0 2147483648 = .error .valueOutOfRange := by
  exact ⟨by decide, ⟨_, rfl, rfl⟩, rfl, ⟨_, rfl⟩, rfl⟩

/-! ## Claim C4 -/

/-- An entry the backing memory will accept: in-bounds address and a
value `Memory.check_value` passes (so `Memory.write_word` succeeds). -/
def writableEntry (size : Int) (e : Cache.Entry) : Prop :=
  e.address < size ∧ e.data ≤ 0x7FFFFFFF ∧ pyBitNot 0x80000000 ≤ e.data

instance (size : Int) (e : Cache.Entry) : Decidable (writableEntry size e) :=
  inferInstanceAs (Decidable (_ ∧ _ ∧ _))

/-- Writing a writable entry succeeds and performs a point update. -/
theorem write_word_writable (m : Memory.State) (e : Cache.Entry)
    (h : writableEntry m.size e) :
    Memory.write_word m e.address e.data =
      .ok { m with memory := fun x => if x = e.address then e.data else m.memory x } := by
  obtain ⟨h1, h2, h3⟩ := h
  have hb : ¬ (e.address ≥ m.size) := by omega
  have hv : ¬ (e.data > 0x7FFFFFFF ∨ e.data < pyBitNot 0x80000000) := by
    unfold pyBitNot at h3 ⊢; omega
  unfold Memory.write_word Memory.check_bounds Memory.check_value
  rw [if_neg hb, if_neg hv]

/-- The sync walk over writable entries never raises, preserves the
memory size, and leaves any address not named by the walked entries
unchanged. -/
theorem syncWalk_writable (dirty : Finset Int) (l : List Cache.Entry) :
    ∀ (m : Memory.State), (∀ e ∈ l, writableEntry m.size e) →
      (Cache.syncWalk m dirty l).2 = none ∧
      (Cache.syncWalk m dirty l).1.size = m.size ∧
      ∀ a, (∀ e ∈ l, e.address ≠ a) →
        (Cache.syncWalk m dirty l).1.memory a = m.memory a := by
  induction l with
  | nil => intro m _; exact ⟨rfl, rfl, fun a _ => rfl⟩
  | cons e rest ih =>
    intro m hw
    have hwe : writableEntry m.size e := hw e (List.mem_cons_self _ _)
    have hwrest : ∀ e2 ∈ rest, writableEntry m.size e2 :=
      fun e2 he2 => hw e2 (List.mem_cons_of_mem _ he2)
    unfold Cache.syncWalk
    by_cases hd : e.address ∈ dirty
    · rw [if_pos hd, write_word_writable m e hwe]
      have ihm := ih { m with memory := fun x => if x = e.address then e.data else m.memory x }
        hwrest
      refine ⟨ihm.1, ihm.2.1, fun a ha => ?_⟩
      have hne : e.address ≠ a := ha e (List.mem_cons_self _ _)
      rw [ihm.2.2 a (fun e2 he2 => ha e2 (List.mem_cons_of_mem _ he2))]
      simp only []
      rw [if_neg (fun hx => hne hx.symm)]
    · rw [if_neg hd]
      have ihm := ih m hwrest
      exact ⟨ihm.1, ihm.2.1, fun a ha =>
        ihm.2.2 a (fun e2 he2 => ha e2 (List.mem_cons_of_mem _ he2))⟩

/-- After walking any writable list followed by a final dirty entry
`(a, v)`, the walk succeeds and the backing memory holds `v` at `a`: the
last-appended entry wins regardless of what the earlier entries wrote. -/
theorem syncWalk_last_entry (dirty : Finset Int) (a v : Int) (hdin : a ∈ dirty)
    (hv1 : v ≤ 0x7FFFFFFF) (hv2 : pyBitNot 0x80000000 ≤ v) :
    ∀ (l : List Cache.Entry) (m : Memory.State),
      (∀ e ∈ l, writableEntry m.size e) → a < m.size →
      (Cache.syncWalk m dirty (l ++ [⟨a, v⟩])).2 = none ∧
      (Cache.syncWalk m dirty (l ++ [⟨a, v⟩])).1.size = m.size ∧
      (Cache.syncWalk m dirty (l ++ [⟨a, v⟩])).1.memory a = v := by
  intro l
  induction l with
  | nil =>
    intro m _ hsz
    have hwa : writableEntry m.size ⟨a, v⟩ := ⟨hsz, hv1, hv2⟩
    simp only [List.nil_append]
    unfold Cache.syncWalk
    rw [if_pos hdin, write_word_writable m ⟨a, v⟩ hwa]
    exact ⟨rfl, rfl, by simp [Cache.syncWalk]⟩
  | cons e rest ih =>
    intro m hw hsz
    have hwe : writableEntry m.size e := hw e (List.mem_cons_self _ _)
    have hwrest : ∀ e2 ∈ rest, writableEntry m.size e2 :=
      fun e2 he2 => hw e2 (List.mem_cons_of_mem _ he2)
    simp only [List.cons_append]
    unfold Cache.syncWalk
    by_cases hd : e.address ∈ dirty
    · rw [if_pos hd, write_word_writable m e hwe]
      exact ih { m with memory := fun x => if x = e.address then e.data else m.memory x }
        hwrest hsz
    · rw [if_neg hd]
      exact ih m hwrest hsz

/-- C4: with the cache enabled, `cache_write(a, v)` followed by
`sync_with_memory()` succeeds, makes `Memory.read_word a` return `v`,
and clears the dirty set.  The hypotheses say the write-back can
succeed: `a` is in bounds, `v` passes `check_value`, and the entries
already resident are themselves writable (a dirty resident entry that
`Memory.write_word` rejects would abort the sync). -/
theorem c4_writeback_sync (c : Cache.State) (a v : Int)
    (hen : c.enabled = true)
    (ha : a < c.main_memory.size)
    (hv1 : v ≤ 0x7FFFFFFF) (hv2 : pyBitNot 0x80000000 ≤ v)
    (hw : ∀ e ∈ c.cache, writableEntry c.main_memory.size e) :
    (Cache.sync_with_memory (Cache.cache_write c a v).1).2 = none ∧
    Memory.read_word
      (Cache.sync_with_memory (Cache.cache_write c a v).1).1.main_memory a = .ok v ∧
    (Cache.sync_with_memory (Cache.cache_write c a v).1).1.dirty_entries = ∅ := by
  have hc1 : (Cache.cache_write c a v).1 =
      { Cache.update_cache c a v with dirty_entries := insert a c.dirty_entries } := by
    unfold Cache.cache_write
    rw [hen]
    rfl
  rw [hc1]
  have hwfilter : ∀ e ∈ c.cache.filter (fun e => e.address ≠ a),
      writableEntry c.main_memory.size e :=
    fun e he => hw e (List.mem_of_mem_filter he)
  have hwalk := syncWalk_last_entry (insert a c.dirty_entries) a v
    (Finset.mem_insert_self a _) hv1 hv2
    (c.cache.filter (fun e => e.address ≠ a)) c.main_memory hwfilter ha
  unfold Cache.sync_with_memory Cache.update_cache
  simp only []
  obtain ⟨hnone, hsz, hmem⟩ := hwalk
  cases hprod : Cache.syncWalk c.main_memory (insert a c.dirty_entries)
      (c.cache.filter (fun e => e.address ≠ a) ++ [⟨a, v⟩]) with
  | mk mem2 errres =>
    rw [hprod] at hnone hsz hmem
    cases errres with
    | some err => exact absurd hnone (by simp)
    | none =>
      refine ⟨rfl, ?_, rfl⟩
      unfold Memory.read_word Memory.check_bounds
      rw [if_neg (by simp only [] at hsz ⊢; omega)]
      simp only [] at hmem ⊢
      rw [hmem]

/-- C4 witness: a fresh enabled cache over a 1024-word memory, writing
value 42 to address 5. -/
theorem c4_writeback_sync_witness :
    (Cache.sync_with_memory (Cache.cache_write
        { Cache.init (Memory.init 1024) 16 with enabled := true } 5 42).1).2 = none ∧
    Memory.read_word (Cache.sync_with_memory (Cache.cache_write
        { Cache.init (Memory.init 1024) 16 with enabled := true } 5 42).1).1.main_memory 5
      = .ok 42 ∧
    (Cache.sync_with_memory (Cache.cache_write
        { Cache.init (Memory.init 1024) 16 with enabled := true } 5 42).1).1.dirty_entries
      = ∅ :=
  c4_writeback_sync { Cache.init (Memory.init 1024) 16 with enabled := true } 5 42
    rfl (by decide) (by decide) (by decide) (by simp [Cache.init])

/-! ## Claim C5 -/

/-- C5: with the cache disabled, `cache_read` returns exactly
`Memory.read_word` with an unchanged cache state, and `cache_write` has
exactly the effect of `Memory.write_word` on the backing memory — the
entry list, dirty set, hit/miss/access counters and latency accumulator
are all untouched by both operations. -/
theorem c5_disabled_passthrough (c : Cache.State) (a v : Int)
    (hdis : c.enabled = false) :
    Cache.cache_read c a = (Memory.read_word c.main_memory a, c) ∧
    (Cache.cache_write c a v).1.cache = c.cache ∧
    (Cache.cache_write c a v).1.dirty_entries = c.dirty_entries ∧
    (Cache.cache_write c a v).1.hits = c.hits ∧
    (Cache.cache_write c a v).1.misses = c.misses ∧
    (Cache.cache_write c a v).1.total_accesses = c.total_accesses ∧
    (Cache.cache_write c a v).1.total_access_time = c.total_access_time ∧
    (Cache.cache_write c a v).1.enabled = c.enabled ∧
    (∀ m2, Memory.write_word c.main_memory a v = .ok m2 →
       Cache.cache_write c a v = ({ c with main_memory := m2 }, none)) ∧
    (∀ err, Memory.write_word c.main_memory a v = .error err →
       Cache.cache_write c a v = (c, some err)) := by
  have hread : Cache.cache_read c a = (Memory.read_word c.main_memory a, c) := by
    unfold Cache.cache_read
    rw [hdis]
    simp
  have hwrite : Cache.cache_write c a v =
      match Memory.write_word c.main_memory a v with
      | .error err => (c, some err)
      | .ok m2 => ({ c with main_memory := m2 }, none) := by
    unfold Cache.cache_write
    rw [hdis]
    simp
  refine ⟨hread, ?_⟩
  cases hww : Memory.write_word c.main_memory a v with
  | ok m2 =>
    rw [hww] at hwrite
    simp only [] at hwrite
    refine ⟨by rw [hwrite], by rw [hwrite], by rw [hwrite], by rw [hwrite],
            by rw [hwrite], by rw [hwrite], by rw [hwrite], ?_, ?_⟩
    · intro m3 hm3
      injection hm3 with h3
      rw [hwrite, h3]
    · intro err herr
      exact absurd herr (by simp)
  | error err =>
    rw [hww] at hwrite
    simp only [] at hwrite
    refine ⟨by rw [hwrite], by rw [hwrite], by rw [hwrite], by rw [hwrite],
            by rw [hwrite], by rw [hwrite], by rw [hwrite], ?_, ?_⟩
    · intro m3 hm3
      exact absurd hm3 (by simp)
    · intro err2 herr2
      injection herr2 with h2
      rw [hwrite, h2]

/-- C5 witness: a disabled fresh cache at address 3, value 9. -/
theorem c5_disabled_passthrough_witness :
    Cache.cache_read (Cache.init (Memory.init 1024) 16) 3 =
      (Memory.read_word (Memory.init 1024) 3, Cache.init (Memory.init 1024) 16) ∧
    (Cache.cache_write (Cache.init (Memory.init 1024) 16) 3 9).1.dirty_entries =
      (Cache.init (Memory.init 1024) 16).dirty_entries :=
  ⟨(c5_disabled_passthrough (Cache.init (Memory.init 1024) 16) 3 9 rfl).1,
   (c5_disabled_passthrough (Cache.init (Memory.init 1024) 16) 3 9 rfl).2.2.1⟩

/-! ## Claim C6 -/

/-- C6: `cache_control 0` only clears `enabled` (entries and dirty set
untouched, no flush); `cache_control 1` only sets `enabled`;
`cache_control 2` is exactly `flush` — it never changes `enabled`, and
when every resident entry is writable the sync succeeds, the entry list
is emptied and the dirty set cleared; every other code raises
`InvalidControlCode` and leaves the state unchanged. -/
theorem c6_cache_control_codes (c : Cache.State) (code : Int) :
    Cache.cache_control c 0 = ({ c with enabled := false }, none) ∧
    Cache.cache_control c 1 = ({ c with enabled := true }, none) ∧
    Cache.cache_control c 2 = Cache.flushCache c ∧
    (Cache.cache_control c 2).1.enabled = c.enabled ∧
    ((∀ e ∈ c.cache, writableEntry c.main_memory.size e) →
       (Cache.cache_control c 2).2 = none ∧
       (Cache.cache_control c 2).1.cache = [] ∧
       (Cache.cache_control c 2).1.dirty_entries = ∅) ∧
    (code ≠ 0 → code ≠ 1 → code ≠ 2 →
       Cache.cache_control c code = (c, some .invalidControlCode)) := by
  have h2 : Cache.cache_control c 2 = Cache.flushCache c := by
    unfold Cache.cache_control
    norm_num
  have hflush : Cache.flushCache c =
      match Cache.syncWalk c.main_memory c.dirty_entries c.cache with
      | (mem2, none) =>
        ({ c with main_memory := mem2, dirty_entries := ∅, cache := [] }, none)
      | (mem2, some err) => ({ c with main_memory := mem2 }, some err) := by
    unfold Cache.flushCache Cache.sync_with_memory
    cases hwalk : Cache.syncWalk c.main_memory c.dirty_entries c.cache with
    | mk mem2 errres => cases errres <;> rfl
  refine ⟨by unfold Cache.cache_control; norm_num,
          by unfold Cache.cache_control; norm_num, h2, ?_, ?_, ?_⟩
  · rw [h2, hflush]
    cases hwalk : Cache.syncWalk c.main_memory c.dirty_entries c.cache with
    | mk mem2 errres => cases errres <;> rfl
  · intro hw
    have hnone := (syncWalk_writable c.dirty_entries c.cache c.main_memory hw).1
    rw [h2, hflush]
    cases hwalk : Cache.syncWalk c.main_memory c.dirty_entries c.cache with
    | mk mem2 errres =>
      rw [hwalk] at hnone
      cases errres with
      | some err => exact absurd hnone (by simp)
      | none => exact ⟨rfl, rfl, rfl⟩
  · intro h0 h1 h2codes
    unfold Cache.cache_control
    rw [if_neg h0, if_neg h1, if_neg h2codes]

/-- C6 witness: a fresh cache, flushing (code 2) and then an invalid
code 3. -/
theorem c6_cache_control_codes_witness :
    ((Cache.cache_control (Cache.init (Memory.init 16) 4) 2).2 = none ∧
     (Cache.cache_control (Cache.init (Memory.init 16) 4) 2).1.cache = [] ∧
     (Cache.cache_control (Cache.init (Memory.init 16) 4) 2).1.dirty_entries = ∅) ∧
    Cache.cache_control (Cache.init (Memory.init 16) 4) 3 =
      (Cache.init (Memory.init 16) 4, some .invalidControlCode) :=
  ⟨(c6_cache_control_codes (Cache.init (Memory.init 16) 4) 3).2.2.2.2.1
     (by simp [Cache.init]),
   (c6_cache_control_codes (Cache.init (Memory.init 16) 4) 3).2.2.2.2.2
     (by decide) (by decide) (by decide)⟩

/-! ## Claim C7 -/

/-- A point-update form of `write_word_writable` with the address and
value given directly. -/
theorem write_word_ok (m : Memory.State) (a v : Int)
    (ha : a < m.size) (hv1 : v ≤ 0x7FFFFFFF) (hv2 : pyBitNot 0x80000000 ≤ v) :
    Memory.write_word m a v =
      .ok { m with memory := fun x => if x = a then v else m.memory x } :=
  write_word_writable m ⟨a, v⟩ ⟨ha, hv1, hv2⟩

/-- C7: if `(a, v)` is the resident entry found for `a`, then disabling
the cache, writing `v2 ≠ v` (which goes straight to Memory), and
re-enabling leaves the stale entry in place: `cache_read a` is a hit
returning `v`, while the backing memory actually holds `v2`. -/
theorem c7_stale_hit_after_disable_cycle (c : Cache.State) (a v v2 : Int)
    (hen : c.enabled = true)
    (hres : c.cache.find? (fun e => e.address = a) = some ⟨a, v⟩)
    (hne : v2 ≠ v)
    (ha : a < c.main_memory.size)
    (hv1 : v2 ≤ 0x7FFFFFFF) (hv2 : pyBitNot 0x80000000 ≤ v2) :
    (Cache.cache_write (Cache.cache_control c 0).1 a v2).2 = none ∧
    (Cache.cache_read (Cache.cache_control
        (Cache.cache_write (Cache.cache_control c 0).1 a v2).1 1).1 a).1 = .ok v ∧
    Memory.read_word (Cache.cache_control
        (Cache.cache_write (Cache.cache_control c 0).1 a v2).1 1).1.main_memory a
      = .ok v2 := by
  have h0 : Cache.cache_control c 0 = ({ c with enabled := false }, none) := by
    unfold Cache.cache_control
    norm_num
  have hwd : Cache.cache_write { c with enabled := false } a v2 =
      ({ c with
           enabled := false
           main_memory :=
             { c.main_memory with
                 memory := fun x => if x = a then v2 else c.main_memory.memory x } },
       none) := by
    unfold Cache.cache_write
    rw [write_word_ok c.main_memory a v2 ha hv1 hv2]
    simp
  have h1 : Cache.cache_control
      ({ c with
           enabled := false
           main_memory :=
             { c.main_memory with
                 memory := fun x => if x = a then v2 else c.main_memory.memory x } }
        : Cache.State) 1 =
      ({ c with
           enabled := true
           main_memory :=
             { c.main_memory with
                 memory := fun x => if x = a then v2 else c.main_memory.memory x } },
       none) := by
    unfold Cache.cache_control
    norm_num
  rw [h0, hwd, h1]
  refine ⟨rfl, ?_, ?_⟩
  · unfold Cache.cache_read
    simp only [Bool.true_eq_false, if_false, hres]
  · unfold Memory.read_word Memory.check_bounds
    rw [if_neg (by simp only []; omega)]
    simp

/-- C7 witness: a cache holding the stale entry `(3, 7)`, overwritten
with 9 directly in memory while disabled. -/
theorem c7_stale_hit_witness :
    ((Cache.cache_write (Cache.cache_control (Cache.cache_write
        { Cache.init (Memory.init 1024) 16 with enabled := true } 3 7).1 0).1 3 9).2
       = none) ∧
    (Cache.cache_read (Cache.cache_control (Cache.cache_write (Cache.cache_control
        (Cache.cache_write
          { Cache.init (Memory.init 1024) 16 with enabled := true } 3 7).1 0).1 3 9).1
        1).1 3).1 = .ok 7 ∧
    Memory.read_word (Cache.cache_control (Cache.cache_write (Cache.cache_control
        (Cache.cache_write
          { Cache.init (Memory.init 1024) 16 with enabled := true } 3 7).1 0).1 3 9).1
        1).1.main_memory 3 = .ok 9 :=
  c7_stale_hit_after_disable_cycle
    (Cache.cache_write { Cache.init (Memory.init 1024) 16 with enabled := true } 3 7).1
    3 7 9 rfl (by decide) (by decide) (by decide) (by decide) (by decide)

/-! ## Claim C8 -/

/-- C8: with the cache enabled, reading a non-resident in-bounds address
is a miss — the miss counter and total-access counter go up by one and
the latency accumulator by 10 — and installs the fetched value; reading
the same address again is a hit — the hit counter goes up by one, the
latency accumulator by 1, the miss counter is unchanged — and returns
the resident value. -/
theorem c8_miss_then_hit (c : Cache.State) (a : Int)
    (hen : c.enabled = true)
    (hmiss : c.cache.find? (fun e => e.address = a) = none)
    (ha : a < c.main_memory.size) :
    (Cache.cache_read c a).1 = .ok (c.main_memory.memory a) ∧
    (Cache.cache_read c a).2.misses = c.misses + 1 ∧
    (Cache.cache_read c a).2.hits = c.hits ∧
    (Cache.cache_read c a).2.total_access_time = c.total_access_time + 10 ∧
    (Cache.cache_read c a).2.total_accesses = c.total_accesses + 1 ∧
    (Cache.cache_read (Cache.cache_read c a).2 a).1 = .ok (c.main_memory.memory a) ∧
    (Cache.cache_read (Cache.cache_read c a).2 a).2.hits =
      (Cache.cache_read c a).2.hits + 1 ∧
    (Cache.cache_read (Cache.cache_read c a).2 a).2.misses =
      (Cache.cache_read c a).2.misses ∧
    (Cache.cache_read (Cache.cache_read c a).2 a).2.total_access_time =
      (Cache.cache_read c a).2.total_access_time + 1 ∧
    (Cache.cache_read (Cache.cache_read c a).2 a).2.total_accesses =
      (Cache.cache_read c a).2.total_accesses + 1 := by
  have hread : Memory.read_word c.main_memory a = .ok (c.main_memory.memory a) := by
    unfold Memory.read_word Memory.check_bounds
    rw [if_neg (by omega)]
  have h1 : Cache.cache_read c a =
      (.ok (c.main_memory.memory a),
       Cache.update_cache
         { c with total_accesses := c.total_accesses + 1, misses := c.misses + 1,
                  total_access_time := c.total_access_time + 10 }
         a (c.main_memory.memory a)) := by
    unfold Cache.cache_read
    rw [hen]
    simp only [Bool.true_eq_false, if_false, hmiss, hread]
  have hfilter : c.cache.filter (fun e => e.address ≠ a) = c.cache := by
    rw [List.filter_eq_self]
    intro e he
    have := List.find?_eq_none.mp hmiss e he
    simpa using this
  have hfind2 :
      (Cache.update_cache
         { c with total_accesses := c.total_accesses + 1, misses := c.misses + 1,
                  total_access_time := c.total_access_time + 10 }
         a (c.main_memory.memory a)).cache.find? (fun e => e.address = a) =
        some ⟨a, c.main_memory.memory a⟩ := by
    unfold Cache.update_cache
    simp only [List.find?_append, hfilter, hmiss]
    simp
  rw [h1]
  refine ⟨rfl, rfl, rfl, rfl, rfl, ?_, ?_, ?_, ?_, ?_⟩ <;>
  · unfold Cache.cache_read
    rw [show (Cache.update_cache
         { c with total_accesses := c.total_accesses + 1, misses := c.misses + 1,
                  total_access_time := c.total_access_time + 10 }
         a (c.main_memory.memory a)).enabled = true from hen]
    simp only [Bool.true_eq_false, if_false, hfind2]

/-- C8 witness: a fresh enabled cache, reading address 3 twice. -/
theorem c8_miss_then_hit_witness :
    (Cache.cache_read { Cache.init (Memory.init 1024) 16 with enabled := true } 3).1
      = .ok 0 ∧
    (Cache.cache_read { Cache.init (Memory.init 1024) 16 with enabled := true } 3).2.misses
      = 1 ∧
    (Cache.cache_read (Cache.cache_read
        { Cache.init (Memory.init 1024) 16 with enabled := true } 3).2 3).2.hits = 1 := by
  have h := c8_miss_then_hit { Cache.init (Memory.init 1024) 16 with enabled := true } 3
    rfl (by decide) (by decide)
  exact ⟨h.1, h.2.1, h.2.2.2.2.2.2.1⟩

/-! ## Claim C9 -/

/-- The cache-mutating operations of the public interface. -/
inductive CacheOp where
  | read (a : Int)
  | write (a v : Int)
  | control (code : Int)
  | sync
  | flushOp

/-- State reached after one operation, discarding the returned value or
error (a Python object keeps its state whether or not the call raised, so
the invariant must also hold after a failed call). -/
def applyOp (c : Cache.State) : CacheOp → Cache.State
  | .read a => (Cache.cache_read c a).2
  | .write a v => (Cache.cache_write c a v).1
  | .control code => (Cache.cache_control c code).1
  | .sync => (Cache.sync_with_memory c).1
  | .flushOp => (Cache.flushCache c).1

/-- Folding a sequence of operations over a state. -/
def runOps (c : Cache.State) : List CacheOp → Cache.State
  | [] => c
  | op :: rest => runOps (applyOp c op) rest

/-- At most one resident entry per address. -/
def addrUnique (l : List Cache.Entry) : Prop :=
  (l.map Cache.Entry.address).Nodup

/-- The insertion procedure preserves address uniqueness: it deletes
every entry for the address before appending the new one. -/
theorem addrUnique_update_cache (c : Cache.State) (a d : Int)
    (h : addrUnique c.cache) : addrUnique (Cache.update_cache c a d).cache := by
  unfold Cache.update_cache addrUnique
  simp only [List.map_append]
  rw [List.nodup_append]
  refine ⟨((List.filter_sublist _).map _).nodup h, by simp, ?_⟩
  intro x hx hy
  simp only [List.mem_map, List.mem_filter] at hx
  obtain ⟨e, ⟨_, hpe⟩, rfl⟩ := hx
  simp only [List.map_cons, List.map_nil, List.mem_singleton] at hy
  simp only [decide_not, Bool.not_eq_true', decide_eq_false_iff_not] at hpe
  exact hpe hy

/-- The cache field is unchanged by a sync. -/
theorem sync_cache_eq (c : Cache.State) :
    (Cache.sync_with_memory c).1.cache = c.cache := by
  unfold Cache.sync_with_memory
  cases hwalk : Cache.syncWalk c.main_memory c.dirty_entries c.cache with
  | mk mem2 errres => cases errres <;> rfl

/-- Every public operation preserves address uniqueness of the entry
list. -/
theorem applyOp_addrUnique (c : Cache.State) (op : CacheOp)
    (h : addrUnique c.cache) : addrUnique (applyOp c op).cache := by
  cases op with
  | read a =>
    simp only [applyOp]
    unfold Cache.cache_read
    by_cases he : c.enabled = false
    · rw [if_pos he]
      exact h
    · rw [if_neg he]
      dsimp only
      cases hf : List.find? (fun e => decide (e.address = a)) c.cache with
      | some e => exact h
      | none =>
        cases hr : Memory.read_word c.main_memory a with
        | error err => exact h
        | ok d => exact addrUnique_update_cache _ a d h
  | write a v =>
    simp only [applyOp]
    unfold Cache.cache_write
    by_cases he : c.enabled = false
    · rw [if_pos he]
      cases hw : Memory.write_word c.main_memory a v with
      | error err => exact h
      | ok m2 => exact h
    · rw [if_neg he]
      exact addrUnique_update_cache _ a v h
  | control code =>
    simp only [applyOp]
    unfold Cache.cache_control
    by_cases h0 : code = 0
    · rw [if_pos h0]; exact h
    · rw [if_neg h0]
      by_cases h1 : code = 1
      · rw [if_pos h1]; exact h
      · rw [if_neg h1]
        by_cases h2 : code = 2
        · rw [if_pos h2]
          unfold Cache.flushCache
          cases hs : Cache.sync_with_memory c with
          | mk c2 errres =>
            cases errres with
            | none => simp [addrUnique]
            | some err =>
              have : c2.cache = c.cache := by
                have := sync_cache_eq c
                rw [hs] at this
                exact this
              simpa [addrUnique, this] using h
        · rw [if_neg h2]; exact h
  | sync =>
    rw [show applyOp c .sync = (Cache.sync_with_memory c).1 from rfl]
    rw [show addrUnique (Cache.sync_with_memory c).1.cache =
          addrUnique c.cache from by rw [sync_cache_eq]]
    exact h
  | flushOp =>
    simp only [applyOp]
    unfold Cache.flushCache
    cases hs : Cache.sync_with_memory c with
    | mk c2 errres =>
      cases errres with
      | none => simp [addrUnique]
      | some err =>
        have : c2.cache = c.cache := by
          have := sync_cache_eq c
          rw [hs] at this
          exact this
        simpa [addrUnique, this] using h

/-- C9: address uniqueness is an invariant: starting from a freshly
constructed cache over any memory, every sequence of `cache_read`,
`cache_write`, `cache_control`, `flush` and `sync_with_memory`
operations leaves at most one resident entry per address. -/
theorem c9_address_uniqueness (mem : Memory.State) (sz : Nat) (ops : List CacheOp) :
    addrUnique (runOps (Cache.init mem sz) ops).cache := by
  have hrun : ∀ (l : List CacheOp) (c : Cache.State), addrUnique c.cache →
      addrUnique (runOps c l).cache := by
    intro l
    induction l with
    | nil => intro c h; exact h
    | cons op rest ih =>
      intro c h
      exact ih _ (applyOp_addrUnique c op h)
  exact hrun ops _ (by simp [Cache.init, addrUnique])

/-! ## Claim C10 -/

/-- Execution halts a sequential run immediately when `running` is
false. -/
theorem execSeq_not_running (l : List CPU.Instr) (s : CPU.State)
    (h : s.running = false) : CPU.execSeq l s = (s, none) := by
  cases l with
  | nil => rfl
  | cons i rest =>
    unfold CPU.execSeq
    rw [h]
    simp

/-- The counter-indexed while loop from `main` equals sequential
front-to-back execution of the dropped instruction list. -/
theorem runFrom_eq_execSeq_drop (instrs : List CPU.Instr) :
    ∀ (n count : Nat) (s : CPU.State), instrs.length - count ≤ n →
      CPU.runFrom instrs s count = CPU.execSeq (instrs.drop count) s := by
  intro n
  induction n with
  | zero =>
    intro count s h
    have hge : instrs.length ≤ count := by omega
    rw [CPU.runFrom, dif_neg (by rintro ⟨-, h2⟩; omega)]
    rw [List.drop_eq_nil_of_le hge]
    rfl
  | succ n ih =>
    intro count s h
    rw [CPU.runFrom]
    by_cases hc : s.running = true ∧ count < instrs.length
    · rw [dif_pos hc, List.drop_eq_getElem_cons hc.2]
      unfold CPU.execSeq
      rw [if_pos hc.1]
      simp only [List.get_eq_getElem]
      cases hexec : CPU.execute_instruction instrs[count] s with
      | mk s2 err =>
        cases err with
        | some e => rfl
        | none => exact ih (count + 1) s2 (by omega)
    · rw [dif_neg hc]
      rcases Decidable.not_and_iff_or_not.mp hc with hrun | hcount
      · rw [execSeq_not_running _ _ (Bool.eq_false_iff.mpr (by simpa using hrun))]
      · rw [List.drop_eq_nil_of_le (by omega)]
        rfl

/-- C10: the run loop selects instructions by a counter that increments
by one after every executed instruction, so it executes the stream
strictly in textual order (`runFrom` from counter 0 equals sequential
execution); and `BNE`, `J`, `JAL` raise nothing and mutate only the
`pc` field (plus register 7 for `JAL`) — in particular they never touch
`running` or the cache, so they never change which instruction is
executed next. -/
theorem c10_run_order_and_jump_frames :
    (∀ (instrs : List CPU.Instr) (s : CPU.State),
        CPU.runFrom instrs s 0 = CPU.execSeq instrs s) ∧
    (∀ (s : CPU.State) (rs rt : Nat) (offset : Int),
        (CPU.execute_instruction (.BNE rs rt offset) s).2 = none ∧
        (CPU.execute_instruction (.BNE rs rt offset) s).1.registers = s.registers ∧
        (CPU.execute_instruction (.BNE rs rt offset) s).1.cache = s.cache ∧
        (CPU.execute_instruction (.BNE rs rt offset) s).1.running = s.running) ∧
    (∀ (s : CPU.State) (target : Int),
        (CPU.execute_instruction (.J target) s).2 = none ∧
        (CPU.execute_instruction (.J target) s).1.registers = s.registers ∧
        (CPU.execute_instruction (.J target) s).1.cache = s.cache ∧
        (CPU.execute_instruction (.J target) s).1.running = s.running) ∧
    (∀ (s : CPU.State) (target : Int),
        (CPU.execute_instruction (.JAL target) s).2 = none ∧
        (∀ r, r ≠ 7 →
          (CPU.execute_instruction (.JAL target) s).1.registers r = s.registers r) ∧
        (CPU.execute_instruction (.JAL target) s).1.registers 7 = s.pc + 4 ∧
        (CPU.execute_instruction (.JAL target) s).1.cache = s.cache ∧
        (CPU.execute_instruction (.JAL target) s).1.running = s.running) := by
  refine ⟨fun instrs s => ?_, fun s rs rt offset => ⟨rfl, rfl, rfl, rfl⟩,
    fun s target => ⟨rfl, rfl, rfl, rfl⟩, fun s target => ⟨rfl, ?_, rfl, rfl, rfl⟩⟩
  · have := runFrom_eq_execSeq_drop instrs instrs.length 0 s (by omega)
    simpa using this
  · intro r hr
    simp [CPU.execute_instruction, hr]

/-- A concrete CPU over a fresh cache and memory, for the C10 witness. -/
def cpuInitState : CPU.State :=
  { cache := Cache.init (Memory.init 1024) 16, pc := 0
    registers := fun _ => 0, running := true }

/-- C10 witness: the loop/sequential equality at a one-instruction
stream, and the `JAL` frame condition at register 3. -/
theorem c10_run_order_witness :
    CPU.runFrom [CPU.Instr.HALT] cpuInitState 0 =
      CPU.execSeq [CPU.Instr.HALT] cpuInitState ∧
    (CPU.execute_instruction (.JAL 2) cpuInitState).1.registers 3 =
      cpuInitState.registers 3 :=
  ⟨c10_run_order_and_jump_frames.1 [CPU.Instr.HALT] cpuInitState,
   (c10_run_order_and_jump_frames.2.2.2 cpuInitState 2).2.1 3 (by decide)⟩
